import Mathlib

/-!
Verification of the rebalancing backtest engine of `src/app.py`.

The engine is `run_strategy` (src/app.py lines 91-133): a period-by-period
simulation of a two-asset portfolio (leveraged instrument plus cash) with a
relative-deviation rebalance trigger, commission on both sides and a
transaction tax on sells.  Prices, cash and shares are embedded as rationals
(the source uses Python floats; all claims are about exact formulas and
branch structure, which the rational embedding captures).  Dates are embedded
by period index: the aligned series (`fetch_data`, lines 81-89) intersects two
unique daily indexes, so dates are strictly increasing and the source's guard
`date != prices.index[0]` holds exactly when the period index is nonzero.
-/

/-- Action of a rebalance trade: the source tags events with the strings
`再平衡買入` (buy) and `再平衡賣出` (sell). -/
inductive TradeAction where
  | buy
  | sell
deriving DecidableEq, Repr

/-- Portfolio state owned by `run_strategy`: `shares` and `cash`
(src/app.py lines 93-95, mutated at lines 115-116 and 123-124). -/
structure PortfolioState where
  shares : ℚ
  cash : ℚ
deriving DecidableEq, Repr

/-- One record appended to `rebalances` (src/app.py lines 117-119 and
125-127).  The source rounds the displayed fields (`round(price, 2)`,
`round(diff, 0)`) and formats the ratio as a percent string
(`f'\x7bcur_ratio:.1%\x7d'`, field `原本比例`); the embedding keeps the exact
rational values, the rounding being float display formatting only. -/
structure RebalanceEvent where
  date : ℕ
  action : TradeAction
  price : ℚ
  amount : ℚ
  ratio : ℚ
deriving DecidableEq, Repr

/-- One record appended to `equity` (src/app.py lines 129-130), from the
post-trade state of the period. -/
structure EquityPoint where
  date : ℕ
  value : ℚ
  stock_value : ℚ
  cash : ℚ
deriving DecidableEq, Repr

/-- Initial portfolio (src/app.py lines 92-95): `cash = init_cash * (1 -
stock_ratio)`, `shares = (init_cash * stock_ratio) * (1 - commission) /
price0`. -/
def initState (init_cash stock_ratio commission price0 : ℚ) : PortfolioState :=
  { shares := init_cash * stock_ratio * (1 - commission) / price0
    cash := init_cash * (1 - stock_ratio) }

/-- Execution of a fired trade (src/app.py lines 108-127): the body of the
trigger branch.  `target = total * stock_ratio`, `diff = target - stock_val`;
a positive `diff` buys `diff / price * (1 - commission)` shares at cost
`diff / (1 - commission)` only when `cash >= cost` (lines 111-119); otherwise
the trade sells `|diff| / price` shares for `sell_sh * price * (1 - commission
- tax)` with no sufficiency check (lines 120-127).  The pre-trade ratio
`cur_ratio` is passed in for the event record. -/
def execTrade (stock_ratio commission tax : ℚ) (i : ℕ) (price : ℚ)
    (s : PortfolioState) (cur_ratio : ℚ) : PortfolioState × Option RebalanceEvent :=
  let stock_val := s.shares * price
  let total := stock_val + s.cash
  let target := total * stock_ratio
  let diff := target - stock_val
  if 0 < diff then
    let new_sh := diff / price * (1 - commission)
    let cost := diff / (1 - commission)
    if cost ≤ s.cash then
      (⟨s.shares + new_sh, s.cash - cost⟩,
       some ⟨i, TradeAction.buy, price, diff, cur_ratio⟩)
    else
      (s, none)
  else
    let sell_sh := |diff| / price
    let revenue := sell_sh * price * (1 - commission - tax)
    (⟨s.shares - sell_sh, s.cash + revenue⟩,
     some ⟨i, TradeAction.sell, price, |diff|, cur_ratio⟩)

/-- One loop iteration of `run_strategy` (src/app.py lines 100-127), for the
period with index `i` and price `price`: computes `stock_val`, `total`,
`cur_ratio`, `deviation` from the pre-trade state (lines 101-105) and enters
the trade branch exactly when `deviation >= trigger and date !=
prices.index[0]` (line 107), the date guard being `i ≠ 0` on the strictly
increasing aligned index.  Returns the post-trade state and the event
appended to `rebalances`, if any. -/
def stepPeriod (stock_ratio trigger commission tax : ℚ) (i : ℕ) (price : ℚ)
    (s : PortfolioState) : PortfolioState × Option RebalanceEvent :=
  let stock_val := s.shares * price
  let total := stock_val + s.cash
  let cur_ratio := stock_val / total
  let deviation := |cur_ratio - stock_ratio| / stock_ratio
  if trigger ≤ deviation ∧ i ≠ 0 then
    execTrade stock_ratio commission tax i price s cur_ratio
  else
    (s, none)

/-- Simulation loop of `run_strategy` from period index `i` onward
(src/app.py lines 100-130): per period, run `stepPeriod` and append an
`EquityPoint` from the post-trade state (line 129: `shares * price + cash`).
Returns the final state, the equity trajectory and the event log. -/
def runFrom (stock_ratio trigger commission tax : ℚ) :
    PortfolioState → ℕ → List ℚ →
      PortfolioState × List EquityPoint × List RebalanceEvent
  | s, _, [] => (s, [], [])
  | s, i, price :: rest =>
    let r := stepPeriod stock_ratio trigger commission tax i price s
    let eq : EquityPoint :=
      ⟨i, r.1.shares * price + r.1.cash, r.1.shares * price, r.1.cash⟩
    let tail := runFrom stock_ratio trigger commission tax r.1 (i + 1) rest
    (tail.1, eq :: tail.2.1, r.2.toList ++ tail.2.2)

/-- The backtest engine `run_strategy` (src/app.py lines 91-133) on a
non-empty aligned price series `p0 :: rest` (the source indexes
`prices.iloc[0]`, so the series is non-empty): initializes the portfolio and
folds the period loop, returning the equity trajectory and the rebalance
log. -/
def run_strategy (p0 : ℚ) (rest : List ℚ)
    (init_cash stock_ratio trigger commission tax : ℚ) :
    List EquityPoint × List RebalanceEvent :=
  let s0 := initState init_cash stock_ratio commission p0
  let r := runFrom stock_ratio trigger commission tax s0 0 (p0 :: rest)
  (r.2.1, r.2.2)

/-- Helper: the trigger branch is never entered at period index 0 (the source
guard `date != prices.index[0]` fails on the first period). -/
theorem stepPeriod_at_zero (sr tg c t price : ℚ) (s : PortfolioState) :
    stepPeriod sr tg c t 0 price s = (s, none) := by
  simp [stepPeriod]

/-- Helper: an event emitted by `stepPeriod` carries the period's own date. -/
theorem stepPeriod_event_date (sr tg c t : ℚ) (i : ℕ) (price : ℚ)
    (s : PortfolioState) (e : RebalanceEvent)
    (h : (stepPeriod sr tg c t i price s).2 = some e) : e.date = i := by
  simp only [stepPeriod, execTrade] at h
  split_ifs at h <;> simp_all <;> subst h <;> rfl

/-- Helper: every event in the log of `runFrom` started at index `i` is dated
at index `i` or later. -/
theorem runFrom_event_index (sr tg c t : ℚ) :
    ∀ (rest : List ℚ) (s : PortfolioState) (i : ℕ) (e : RebalanceEvent),
      e ∈ (runFrom sr tg c t s i rest).2.2 → i ≤ e.date := by
  intro rest
  induction rest with
  | nil => intro s i e h; simp [runFrom] at h
  | cons price rest ih =>
    intro s i e h
    simp only [runFrom, List.mem_append] at h
    rcases h with h | h
    · rw [Option.mem_toList, Option.mem_def] at h
      exact le_of_eq (stepPeriod_event_date sr tg c t i price s e h).symm
    · exact le_trans (Nat.le_succ i) (ih _ (i + 1) e h)

/-- C1: in `run_strategy`, a trade is attempted in a period exactly when the
relative deviation `|current_ratio - target_ratio| / target_ratio` of the
pre-trade state reaches the threshold and the period is not the first; on
fire the trade passes to `execTrade`, which targets `target_stock_value =
total_value * target_ratio`; the first period never attempts a trade, and the
trade log never contains an event dated at the first period. -/
theorem C1_trigger_iff_and_no_first_period_event
    (stock_ratio trigger commission tax : ℚ) :
    (∀ (p0 : ℚ) (rest : List ℚ) (init_cash : ℚ) (e : RebalanceEvent),
        e ∈ (run_strategy p0 rest init_cash stock_ratio trigger commission tax).2 →
        e.date ≠ 0)
    ∧ (∀ (price : ℚ) (s : PortfolioState),
        stepPeriod stock_ratio trigger commission tax 0 price s = (s, none))
    ∧ (∀ (i : ℕ) (price : ℚ) (s : PortfolioState), i ≠ 0 →
        (trigger ≤ |s.shares * price / (s.shares * price + s.cash) - stock_ratio|
              / stock_ratio →
          stepPeriod stock_ratio trigger commission tax i price s =
            execTrade stock_ratio commission tax i price s
              (s.shares * price / (s.shares * price + s.cash)))
        ∧ (¬ trigger ≤ |s.shares * price / (s.shares * price + s.cash) - stock_ratio|
              / stock_ratio →
          stepPeriod stock_ratio trigger commission tax i price s = (s, none))) := by
  refine ⟨?_, fun price s => stepPeriod_at_zero _ _ _ _ _ _, ?_⟩
  · intro p0 rest init_cash e h
    simp only [run_strategy, runFrom, stepPeriod_at_zero, Option.toList,
      List.nil_append, List.mem_append] at h
    have := runFrom_event_index stock_ratio trigger commission tax rest _ 1 e h
    omega
  · intro i price s hi
    constructor
    · intro hdev
      simp only [stepPeriod]
      rw [if_pos ⟨hdev, hi⟩]
    · intro hdev
      simp only [stepPeriod]
      rw [if_neg]
      rintro ⟨h1, -⟩
      exact hdev h1

/-- Witness for C1 at a concrete run: the series `[100, 200]` with target
ratio 1/2 and threshold 1/10 logs one sell event, dated at period 1, not at
the first period. -/
theorem C1_witness :
    ({ date := 1, action := TradeAction.sell, price := 200, amount := 250000,
       ratio := 2/3 } : RebalanceEvent).date ≠ 0 :=
  (C1_trigger_iff_and_no_first_period_event (1/2) (1/10) 0 0).1 100 [200] 1000000
    ⟨1, TradeAction.sell, 200, 250000, 2/3⟩
    (by norm_num [run_strategy, runFrom, stepPeriod, execTrade, initState, abs, max_def])

/-- C2: when the trigger fires with a positive `diff = target_stock_value -
stock_value`, the buy computes `shares_bought = diff / price * (1 -
commission)` and `cost = diff / (1 - commission)` and executes (cash falls by
`cost`, shares rise by `shares_bought`, one event is logged) exactly when
`cash >= cost`; with insufficient cash the state and the event are untouched
and the loop continues into the next period with no failure. -/
theorem C2_buy_executes_iff_cash_suffices
    (stock_ratio trigger commission tax : ℚ) (i : ℕ) (price sh ca : ℚ)
    (hfire : trigger ≤ |sh * price / (sh * price + ca) - stock_ratio| / stock_ratio)
    (hi : i ≠ 0)
    (hbuy : 0 < (sh * price + ca) * stock_ratio - sh * price) :
    (((sh * price + ca) * stock_ratio - sh * price) / (1 - commission) ≤ ca →
      stepPeriod stock_ratio trigger commission tax i price ⟨sh, ca⟩ =
        (⟨sh + ((sh * price + ca) * stock_ratio - sh * price) / price * (1 - commission),
          ca - ((sh * price + ca) * stock_ratio - sh * price) / (1 - commission)⟩,
         some ⟨i, TradeAction.buy, price,
               (sh * price + ca) * stock_ratio - sh * price,
               sh * price / (sh * price + ca)⟩))
    ∧ (ca < ((sh * price + ca) * stock_ratio - sh * price) / (1 - commission) →
        stepPeriod stock_ratio trigger commission tax i price ⟨sh, ca⟩ = (⟨sh, ca⟩, none))
    ∧ (ca < ((sh * price + ca) * stock_ratio - sh * price) / (1 - commission) →
        ∀ rest : List ℚ,
          runFrom stock_ratio trigger commission tax ⟨sh, ca⟩ i (price :: rest) =
            ((runFrom stock_ratio trigger commission tax ⟨sh, ca⟩ (i + 1) rest).1,
             ⟨i, sh * price + ca, sh * price, ca⟩ ::
               (runFrom stock_ratio trigger commission tax ⟨sh, ca⟩ (i + 1) rest).2.1,
             (runFrom stock_ratio trigger commission tax ⟨sh, ca⟩ (i + 1) rest).2.2)) := by
  have hskip : ca < ((sh * price + ca) * stock_ratio - sh * price) / (1 - commission) →
      stepPeriod stock_ratio trigger commission tax i price ⟨sh, ca⟩ = (⟨sh, ca⟩, none) := by
    intro hca
    simp only [stepPeriod]
    rw [if_pos ⟨hfire, hi⟩]
    simp only [execTrade]
    rw [if_pos hbuy, if_neg (not_le.mpr hca)]
  refine ⟨?_, hskip, ?_⟩
  · intro hca
    simp only [stepPeriod]
    rw [if_pos ⟨hfire, hi⟩]
    simp only [execTrade]
    rw [if_pos hbuy, if_pos hca]
  · intro hca rest
    simp only [runFrom, hskip hca, Option.toList_none, List.nil_append]

/-- Witness for C2 at a concrete skipped buy: target ratio 3/4, threshold
1/4, commission 3/4, state one share and one unit of cash at price 1 — the
trigger fires, `diff = 1/2 > 0`, `cost = 2 > 1 = cash`, and the step leaves
the state unchanged and logs nothing. -/
theorem C2_witness :
    stepPeriod (3/4) (1/4) (3/4) 0 1 1 ⟨1, 1⟩ = (⟨1, 1⟩, none) :=
  (C2_buy_executes_iff_cash_suffices (3/4) (1/4) (3/4) 0 1 1 1 1
      (by norm_num [abs, max_def]) (by norm_num) (by norm_num)).2.1 (by norm_num)

/-- C3: when the trigger fires with `diff <= 0` the sell always executes with
no cash or share-sufficiency check: shares fall by `|diff| / price`, cash
rises by `|diff| * (1 - commission - tax)`, one event is logged; and the tax
rate never reaches a buy: on a positive `diff` the step does not depend on
the tax parameter at all. -/
theorem C3_sell_always_executes
    (stock_ratio trigger commission tax : ℚ) (i : ℕ) (price sh ca : ℚ)
    (hfire : trigger ≤ |sh * price / (sh * price + ca) - stock_ratio| / stock_ratio)
    (hi : i ≠ 0)
    (hsell : (sh * price + ca) * stock_ratio - sh * price ≤ 0)
    (hp : price ≠ 0) :
    (stepPeriod stock_ratio trigger commission tax i price ⟨sh, ca⟩ =
      (⟨sh - |(sh * price + ca) * stock_ratio - sh * price| / price,
        ca + |(sh * price + ca) * stock_ratio - sh * price| * (1 - commission - tax)⟩,
       some ⟨i, TradeAction.sell, price,
             |(sh * price + ca) * stock_ratio - sh * price|,
             sh * price / (sh * price + ca)⟩))
    ∧ (∀ (t₁ t₂ sh₂ ca₂ : ℚ) (j : ℕ),
        0 < (sh₂ * price + ca₂) * stock_ratio - sh₂ * price →
        stepPeriod stock_ratio trigger commission t₁ j price ⟨sh₂, ca₂⟩ =
          stepPeriod stock_ratio trigger commission t₂ j price ⟨sh₂, ca₂⟩) := by
  constructor
  · simp only [stepPeriod]
    rw [if_pos ⟨hfire, hi⟩]
    simp only [execTrade]
    rw [if_neg (not_lt.mpr hsell), div_mul_cancel₀ _ hp]
  · intro t₁ t₂ sh₂ ca₂ j hpos
    simp only [stepPeriod, execTrade]
    split_ifs <;> rfl

/-- Witness for C3 at a concrete sell: series state 5000 shares and 500000
cash at price 200 with target ratio 1/2, threshold 1/10, zero friction —
the fired sell executes unconditionally. -/
theorem C3_witness :
    stepPeriod (1/2) (1/10) 0 0 1 200 ⟨5000, 500000⟩ =
      (⟨5000 - |(5000 * 200 + 500000) * (1/2) - 5000 * 200| / 200,
        500000 + |(5000 * 200 + 500000) * (1/2) - 5000 * 200| * (1 - 0 - 0)⟩,
       some ⟨1, TradeAction.sell, 200,
             |(5000 * 200 + 500000) * (1/2) - 5000 * 200|,
             5000 * 200 / (5000 * 200 + 500000)⟩) :=
  (C3_sell_always_executes (1/2) (1/10) 0 0 1 200 5000 500000
      (by norm_num [abs, max_def]) (by norm_num) (by norm_num) (by norm_num)).1

/-- Helper: with a positive target ratio, commission below 1, combined
friction `commission + tax` at most 1 and a positive price, one period of the
simulation keeps shares and cash non-negative: buys are guarded by
`cash >= cost`, and a sell leaves exactly `total * stock_ratio / price`
shares and adds non-negative proceeds. -/
theorem stepPeriod_preserves_nonneg (stock_ratio trigger commission tax : ℚ)
    (hsr : 0 < stock_ratio) (hc1 : commission < 1) (hct : commission + tax ≤ 1)
    (i : ℕ) (price : ℚ) (hp : 0 < price) (s : PortfolioState)
    (hsh : 0 ≤ s.shares) (hca : 0 ≤ s.cash) :
    0 ≤ (stepPeriod stock_ratio trigger commission tax i price s).1.shares
    ∧ 0 ≤ (stepPeriod stock_ratio trigger commission tax i price s).1.cash := by
  have htot : 0 ≤ s.shares * price + s.cash :=
    add_nonneg (mul_nonneg hsh hp.le) hca
  simp only [stepPeriod, execTrade]
  split_ifs with hcond hdiff hcost
  · -- executed buy
    constructor
    · exact add_nonneg hsh
        (mul_nonneg (div_nonneg (le_of_lt hdiff) hp.le) (by linarith))
    · exact sub_nonneg.mpr hcost
  · -- skipped buy
    exact ⟨hsh, hca⟩
  · -- sell
    push_neg at hdiff
    constructor
    · have heq : s.shares -
          |(s.shares * price + s.cash) * stock_ratio - s.shares * price| / price =
          (s.shares * price + s.cash) * stock_ratio / price := by
        rw [abs_of_nonpos hdiff]
        field_simp
      rw [heq]
      exact div_nonneg (mul_nonneg htot hsr.le) hp.le
    · refine add_nonneg hca (mul_nonneg (mul_nonneg ?_ hp.le) (by linarith))
      exact div_nonneg (abs_nonneg _) hp.le
  · -- no trade
    exact ⟨hsh, hca⟩

/-- Helper: the per-period invariant propagated along the loop: every emitted
equity point has non-negative cash and stock value, and the final state has
non-negative shares and cash. -/
theorem runFrom_nonneg (stock_ratio trigger commission tax : ℚ)
    (hsr : 0 < stock_ratio) (hc1 : commission < 1) (hct : commission + tax ≤ 1) :
    ∀ (rest : List ℚ) (s : PortfolioState) (i : ℕ),
      (∀ p ∈ rest, 0 < p) → 0 ≤ s.shares → 0 ≤ s.cash →
      (∀ eq ∈ (runFrom stock_ratio trigger commission tax s i rest).2.1,
          0 ≤ eq.cash ∧ 0 ≤ eq.stock_value)
      ∧ 0 ≤ (runFrom stock_ratio trigger commission tax s i rest).1.shares
      ∧ 0 ≤ (runFrom stock_ratio trigger commission tax s i rest).1.cash := by
  intro rest
  induction rest with
  | nil =>
    intro s i _ hsh hca
    exact ⟨by simp [runFrom], hsh, hca⟩
  | cons price rest ih =>
    intro s i hpos hsh hca
    have hp : 0 < price := hpos price (List.mem_cons_self _ _)
    have hstep := stepPeriod_preserves_nonneg stock_ratio trigger commission tax
      hsr hc1 hct i price hp s hsh hca
    have htail := ih (stepPeriod stock_ratio trigger commission tax i price s).1
      (i + 1) (fun p hm => hpos p (List.mem_cons_of_mem _ hm)) hstep.1 hstep.2
    refine ⟨?_, htail.2⟩
    intro eq hmem
    simp only [runFrom, List.mem_cons] at hmem
    rcases hmem with rfl | hmem
    · exact ⟨hstep.2, mul_nonneg hstep.1 hp.le⟩
    · exact htail.1 eq hmem

/-- C4 counterexample: the claim admits any commission and tax rates in
`[0, 1)`, but with `commission = tax = 9/10` (both in `[0, 1)`), positive
prices `[100, 100000]`, `init_cash = 1000000 > 0` and `target_ratio = 1/2`,
the period-1 sell books negative proceeds and drives cash to `-19300000`:
the claimed invariant `cash ≥ 0` after every period is false. -/
theorem C4_counterexample :
    ((0:ℚ) ≤ 9/10 ∧ (9:ℚ)/10 < 1 ∧ (0:ℚ) < 1/2 ∧ (1:ℚ)/2 < 1
      ∧ (0:ℚ) < 1000000 ∧ (0:ℚ) < 100 ∧ (0:ℚ) < 100000)
    ∧ (run_strategy 100 [100000] 1000000 (1/2) (1/2) (9/10) (9/10)).1.map
        EquityPoint.cash = [500000, -19300000]
    ∧ ¬ (0:ℚ) ≤ -19300000 := by
  refine ⟨by norm_num, ?_, by norm_num⟩
  norm_num [run_strategy, runFrom, stepPeriod, execTrade, initState, abs, max_def]

/-- C4 amended: with the additional hypothesis `commission + tax ≤ 1` (the
claim's `commission, tax ∈ [0,1)` alone is not enough: a sell multiplies
`|diff|` by `1 - commission - tax`, which the claim's ranges allow to be
negative), every period of the simulation ends with `cash ≥ 0` and stock
value (hence shares) non-negative, and the final state has `shares ≥ 0` and
`cash ≥ 0` — in particular a sell never drives shares negative even though
the sell branch performs no share-sufficiency check. -/
theorem C4_amended_nonneg_invariant (p0 : ℚ) (rest : List ℚ)
    (init_cash stock_ratio trigger commission tax : ℚ)
    (hinit : 0 < init_cash) (hsr0 : 0 < stock_ratio) (hsr1 : stock_ratio < 1)
    (hc0 : 0 ≤ commission) (hc1 : commission < 1) (ht0 : 0 ≤ tax)
    (hct : commission + tax ≤ 1)
    (hp0 : 0 < p0) (hrest : ∀ p ∈ rest, 0 < p) :
    ∀ eq ∈ (run_strategy p0 rest init_cash stock_ratio trigger commission tax).1,
      0 ≤ eq.cash ∧ 0 ≤ eq.stock_value := by
  have hsh : 0 ≤ (initState init_cash stock_ratio commission p0).shares := by
    simp only [initState]
    have h1c : (0:ℚ) ≤ 1 - commission := by linarith
    exact div_nonneg (mul_nonneg (mul_nonneg hinit.le hsr0.le) h1c) hp0.le
  have hca : 0 ≤ (initState init_cash stock_ratio commission p0).cash := by
    simp only [initState]
    nlinarith
  have hall : ∀ p ∈ p0 :: rest, 0 < p := by
    intro p hm
    rcases List.mem_cons.mp hm with rfl | hm
    · exact hp0
    · exact hrest p hm
  exact (runFrom_nonneg stock_ratio trigger commission tax hsr0 hc1 hct
    (p0 :: rest) _ 0 hall hsh hca).1

/-- Witness for C4 (amended) at the run over `[100, 200]` with target ratio
1/2, threshold 1/10 and zero friction: the period-1 equity point has
non-negative cash and stock value. -/
theorem C4_witness :
    0 ≤ (⟨1, 1500000, 750000, 750000⟩ : EquityPoint).cash
    ∧ 0 ≤ (⟨1, 1500000, 750000, 750000⟩ : EquityPoint).stock_value :=
  C4_amended_nonneg_invariant 100 [200] 1000000 (1/2) (1/10) 0 0
    (by norm_num) (by norm_num) (by norm_num) (by norm_num) (by norm_num)
    (by norm_num) (by norm_num) (by norm_num)
    (by intro p hm; rw [List.mem_singleton] at hm; rw [hm]; norm_num)
    ⟨1, 1500000, 750000, 750000⟩
    (by norm_num [run_strategy, runFrom, stepPeriod, execTrade, initState, abs, max_def])

/-- C5 counterexample: Scenario A run concretely with the app's rates
(`commission = 0.001425 = 57/40000`, `tax = 0.003`), constant price 100 for 5
periods, `init_cash = 1000000`, `target_ratio = 1/2` and threshold `1/2 > 0`:
the trade log is indeed empty, but the final total value is `999287.5 =
1000000 * (1 - commission/2)` — the entry commission hits only the stock
half — and not the claimed `1000000 * (1 - commission) = 998575`. -/
theorem C5_counterexample :
    (run_strategy 100 [100, 100, 100, 100] 1000000 (1/2) (1/2) (57/40000) (3/1000)).2 = []
    ∧ (run_strategy 100 [100, 100, 100, 100] 1000000 (1/2) (1/2) (57/40000) (3/1000)).1.map
        EquityPoint.value =
        [1998575/2, 1998575/2, 1998575/2, 1998575/2, 1998575/2]
    ∧ (1998575/2 : ℚ) ≠ 1000000 * (1 - 57/40000) := by
  refine ⟨?_, ?_, by norm_num⟩ <;>
    norm_num [run_strategy, runFrom, stepPeriod, execTrade, initState, abs, max_def]

/-- C5 amended: with the app's rates, constant price 100 for 5 periods,
`init_cash = 1000000` and `target_ratio = 1/2`, the entry commission leaves
the ratio at a fixed relative deviation of `57/79943` from target, so for
any threshold strictly above `57/79943` (rather than any threshold `> 0`)
the trade log is empty and every period's total value is `1000000 * (1 -
target_ratio * commission) = 1998575/2` (rather than `1000000 * (1 -
commission)`). -/
theorem C5_amended_flat_series (trigger : ℚ) (h : 57/79943 < trigger) :
    (run_strategy 100 [100, 100, 100, 100] 1000000 (1/2) trigger (57/40000) (3/1000)).2 = []
    ∧ (run_strategy 100 [100, 100, 100, 100] 1000000 (1/2) trigger (57/40000) (3/1000)).1.map
        EquityPoint.value =
        [1998575/2, 1998575/2, 1998575/2, 1998575/2, 1998575/2] := by
  have hstep : ∀ i : ℕ,
      stepPeriod (1/2) trigger (57/40000) (3/1000) i 100 ⟨39943/8, 500000⟩ =
        (⟨39943/8, 500000⟩, none) := by
    intro i
    simp only [stepPeriod]
    rw [if_neg]
    rintro ⟨hle, -⟩
    norm_num [abs, max_def] at hle
    exact absurd h (not_lt.mpr hle)
  have h0 : initState 1000000 (1/2) (57/40000) 100 = (⟨39943/8, 500000⟩ : PortfolioState) := by
    norm_num [initState]
  constructor
  · simp only [run_strategy, h0, runFrom, hstep, Option.toList_none, List.nil_append,
      List.append_nil]
  · simp only [run_strategy, h0, runFrom, hstep, List.map]
    norm_num

/-- Witness for C5 (amended) at threshold 1/2. -/
theorem C5_witness :
    (run_strategy 100 [100, 100, 100, 100] 1000000 (1/2) (1/2) (57/40000) (3/1000)).2 = []
    ∧ (run_strategy 100 [100, 100, 100, 100] 1000000 (1/2) (1/2) (57/40000) (3/1000)).1.map
        EquityPoint.value =
        [1998575/2, 1998575/2, 1998575/2, 1998575/2, 1998575/2] :=
  C5_amended_flat_series (1/2) (by norm_num)

/-- C6 counterexample: in the run over `[100, 200]` with target ratio 1/2,
threshold 1/10 and zero friction, the single logged event carries the
pre-trade ratio `2/3` (the source's `原本比例`, formatted from `cur_ratio`),
while the post-trade allocation of that period is `750000 / 1500000 = 1/2`:
the log does not record the resulting ratio. -/
theorem C6_counterexample :
    (run_strategy 100 [200] 1000000 (1/2) (1/10) 0 0).2 =
      [⟨1, TradeAction.sell, 200, 250000, 2/3⟩]
    ∧ (run_strategy 100 [200] 1000000 (1/2) (1/10) 0 0).1 =
      [⟨0, 1000000, 500000, 500000⟩, ⟨1, 1500000, 750000, 750000⟩]
    ∧ ((2:ℚ)/3) ≠ 750000 / 1500000 := by
  refine ⟨?_, ?_, by norm_num⟩ <;>
    norm_num [run_strategy, runFrom, stepPeriod, execTrade, initState, abs, max_def]

/-- C6 amended: every event appended to the trade log records, alongside
date, action, trade amount and price, the ratio of the portfolio before the
trade is executed (`cur_ratio = stock_value / total_value` of the pre-trade
state, the source's `原本比例` field), not the post-trade resulting ratio. -/
theorem C6_amended_event_records_pretrade_ratio
    (stock_ratio trigger commission tax : ℚ) (i : ℕ) (price sh ca : ℚ)
    (e : RebalanceEvent)
    (h : (stepPeriod stock_ratio trigger commission tax i price ⟨sh, ca⟩).2 = some e) :
    e.ratio = sh * price / (sh * price + ca) ∧ e.date = i ∧ e.price = price := by
  simp only [stepPeriod, execTrade] at h
  split_ifs at h <;> simp_all <;> subst h <;> exact ⟨rfl, rfl, rfl⟩

/-- Witness for C6 (amended): the event logged by the period-1 sell of the
`[100, 200]` run carries the pre-trade ratio `2/3`. -/
theorem C6_witness :
    ((⟨1, TradeAction.sell, 200, 250000, 2/3⟩ : RebalanceEvent).ratio =
        5000 * 200 / (5000 * 200 + 500000))
    ∧ (⟨1, TradeAction.sell, 200, 250000, 2/3⟩ : RebalanceEvent).date = 1
    ∧ (⟨1, TradeAction.sell, 200, 250000, 2/3⟩ : RebalanceEvent).price = 200 :=
  C6_amended_event_records_pretrade_ratio (1/2) (1/10) 0 0 1 200 5000 500000
    ⟨1, TradeAction.sell, 200, 250000, 2/3⟩
    (by norm_num [stepPeriod, execTrade, abs, max_def])

/-- Modelled from the spec: the `PriceChange(threshold)` trigger policy and
the engine variant using it are not present in src/app.py (only the
relative-deviation trigger is; the spec lists PriceChange among the
repository's trigger variants).  Per the spec, the policy fires when
`|price / last_rebalance_price - 1| >= threshold`, never on the first
period; the trade size uses the same `target_stock_value = total_value *
target_ratio` mechanics as the relative-deviation engine; and
`last_rebalance_price` is updated to the current price on every fire. -/
def pcStep (stock_ratio trigger commission tax : ℚ) (i : ℕ) (price : ℚ)
    (s : PortfolioState) (last : ℚ) :
    (PortfolioState × ℚ) × Option RebalanceEvent :=
  if trigger ≤ |price / last - 1| ∧ i ≠ 0 then
    let r := execTrade stock_ratio commission tax i price s
      (s.shares * price / (s.shares * price + s.cash))
    ((r.1, price), r.2)
  else
    ((s, last), none)

/-- Modelled from the spec: the simulation loop of the PriceChange engine
variant, carrying the policy's mutable memory `last` alongside the portfolio
state; same per-period equity bookkeeping as `runFrom`. -/
def pcRunFrom (stock_ratio trigger commission tax : ℚ) :
    PortfolioState → ℚ → ℕ → List ℚ →
      (PortfolioState × ℚ) × List EquityPoint × List RebalanceEvent
  | s, last, _, [] => ((s, last), [], [])
  | s, last, i, price :: rest =>
    let r := pcStep stock_ratio trigger commission tax i price s last
    let eq : EquityPoint :=
      ⟨i, r.1.1.shares * price + r.1.1.cash, r.1.1.shares * price, r.1.1.cash⟩
    let tail := pcRunFrom stock_ratio trigger commission tax r.1.1 r.1.2 (i + 1) rest
    (tail.1, eq :: tail.2.1, r.2.toList ++ tail.2.2)

/-- Modelled from the spec: the PriceChange engine on a non-empty series;
`last_rebalance_price` is initialized to the first period's price. -/
def run_strategy_pc (p0 : ℚ) (rest : List ℚ)
    (init_cash stock_ratio trigger commission tax : ℚ) :
    (PortfolioState × ℚ) × List EquityPoint × List RebalanceEvent :=
  pcRunFrom stock_ratio trigger commission tax
    (initState init_cash stock_ratio commission p0) p0 0 (p0 :: rest)

/-- C7: the PriceChange policy fires exactly when `|price /
last_rebalance_price - 1| >= threshold` on a non-first period — a decision
based on price drift since the last fired event, not on the current
allocation ratio — updates its memory to the current price exactly on fire,
and is a materially different policy from the ratio trigger: on the series
`[100, 150]` with threshold 1/2 the PriceChange engine trades while the
ratio engine does not; on `[100, 140, 160]` it skips 140 (40% drift), fires
at 160 (60% drift from 100) and leaves `last_rebalance_price = 160`. -/
theorem C7_pricechange_policy (stock_ratio trigger commission tax : ℚ) :
    (∀ (price last : ℚ) (s : PortfolioState),
        pcStep stock_ratio trigger commission tax 0 price s last = ((s, last), none))
    ∧ (∀ (i : ℕ) (price last : ℚ) (s : PortfolioState), i ≠ 0 →
        (trigger ≤ |price / last - 1| →
          pcStep stock_ratio trigger commission tax i price s last =
            (((execTrade stock_ratio commission tax i price s
                  (s.shares * price / (s.shares * price + s.cash))).1, price),
              (execTrade stock_ratio commission tax i price s
                  (s.shares * price / (s.shares * price + s.cash))).2))
        ∧ (¬ trigger ≤ |price / last - 1| →
          pcStep stock_ratio trigger commission tax i price s last = ((s, last), none)))
    ∧ ((run_strategy_pc 100 [150] 1000000 (1/2) (1/2) 0 0).2.2.map
          RebalanceEvent.date = [1]
        ∧ (run_strategy 100 [150] 1000000 (1/2) (1/2) 0 0).2 = [])
    ∧ ((run_strategy_pc 100 [140, 160] 1000000 (1/2) (1/2) 0 0).1.2 = 160
        ∧ (run_strategy_pc 100 [140, 160] 1000000 (1/2) (1/2) 0 0).2.2.map
            RebalanceEvent.date = [2]) := by
  refine ⟨?_, ?_, ?_, ?_⟩
  · intro price last s
    simp [pcStep]
  · intro i price last s hi
    constructor
    · intro hdrift
      simp only [pcStep]
      rw [if_pos ⟨hdrift, hi⟩]
    · intro hdrift
      simp only [pcStep]
      rw [if_neg]
      rintro ⟨h1, -⟩
      exact hdrift h1
  · constructor <;>
      norm_num [run_strategy_pc, pcRunFrom, pcStep, run_strategy, runFrom, stepPeriod,
        execTrade, initState, abs, max_def]
  · constructor <;>
      norm_num [run_strategy_pc, pcRunFrom, pcStep, execTrade, initState, abs, max_def]

/-- Witness for C7 at a concrete fire: at period 1 with price 150 and
`last_rebalance_price = 100`, drift 50% meets threshold 1/2 and the step
trades and updates its memory to 150. -/
theorem C7_witness :
    pcStep (1/2) (1/2) 0 0 1 150 ⟨5000, 500000⟩ 100 =
      (((execTrade (1/2) 0 0 1 150 ⟨5000, 500000⟩
            ((5000:ℚ) * 150 / (5000 * 150 + 500000))).1, 150),
        (execTrade (1/2) 0 0 1 150 ⟨5000, 500000⟩
            ((5000:ℚ) * 150 / (5000 * 150 + 500000))).2) :=
  ((C7_pricechange_policy (1/2) (1/2) 0 0).2.1 1 150 100 ⟨5000, 500000⟩
      (by norm_num)).1 (by norm_num [abs, max_def])

/-- Helper: the loop emits exactly one equity point per input period,
unconditionally in the parameters. -/
theorem runFrom_length (stock_ratio trigger commission tax : ℚ) :
    ∀ (rest : List ℚ) (s : PortfolioState) (i : ℕ),
      (runFrom stock_ratio trigger commission tax s i rest).2.1.length = rest.length := by
  intro rest
  induction rest with
  | nil => intro s i; simp [runFrom]
  | cons price rest ih =>
    intro s i
    simp only [runFrom, List.length_cons, ih]

/-- C8 counterexample: `run_strategy` contains no parameter validation.
With `target_ratio = 2`, outside `(0, 1)`, the simulation does not fail
before processing any period: it runs the single period `[100]` to
completion and returns an equity trajectory (with a negative cash leg
`init_cash * (1 - 2)`), raising nothing. -/
theorem C8_counterexample :
    (run_strategy 100 [] 1000000 2 (1/2) 0 0).1 =
      [⟨0, 1000000, 2000000, -1000000⟩]
    ∧ ¬ ((2:ℚ) < 1) := by
  refine ⟨?_, by norm_num⟩
  norm_num [run_strategy, runFrom, stepPeriod, execTrade, initState, abs, max_def]

/-- Division with the source's raising semantics: Python raises
`ZeroDivisionError` exactly when the divisor is 0, so a zero divisor yields
`none` instead of the total rational division's junk value 0. -/
def divE (a b : ℚ) : Option ℚ := if b = 0 then none else some (a / b)

/-- Initial portfolio (src/app.py lines 92-95) under raising division: line
95 divides by `price0`. -/
def initStateE (init_cash stock_ratio commission price0 : ℚ) : Option PortfolioState :=
  (divE (init_cash * stock_ratio * (1 - commission)) price0).map
    fun sh => ⟨sh, init_cash * (1 - stock_ratio)⟩

/-- Execution of a fired trade (src/app.py lines 108-127) under raising
division: the buy divides by `price` (line 112) and by `1 - commission`
(line 113), the sell by `price` (line 121); otherwise identical to
`execTrade`. -/
def execTradeE (stock_ratio commission tax : ℚ) (i : ℕ) (price : ℚ)
    (s : PortfolioState) (cur_ratio : ℚ) :
    Option (PortfolioState × Option RebalanceEvent) :=
  let stock_val := s.shares * price
  let total := stock_val + s.cash
  let target := total * stock_ratio
  let diff := target - stock_val
  if 0 < diff then
    if price = 0 then none
    else if (1 : ℚ) - commission = 0 then none
    else
      let new_sh := diff / price * (1 - commission)
      let cost := diff / (1 - commission)
      if cost ≤ s.cash then
        some (⟨s.shares + new_sh, s.cash - cost⟩,
              some ⟨i, TradeAction.buy, price, diff, cur_ratio⟩)
      else
        some (s, none)
  else
    if price = 0 then none
    else
      let sell_sh := |diff| / price
      let revenue := sell_sh * price * (1 - commission - tax)
      some (⟨s.shares - sell_sh, s.cash + revenue⟩,
            some ⟨i, TradeAction.sell, price, |diff|, cur_ratio⟩)

/-- One loop iteration (src/app.py lines 100-127) under raising division:
line 104 divides by `total` and line 105 by `stock_ratio`, both evaluated
every period before the trigger test; otherwise identical to
`stepPeriod`. -/
def stepPeriodE (stock_ratio trigger commission tax : ℚ) (i : ℕ) (price : ℚ)
    (s : PortfolioState) : Option (PortfolioState × Option RebalanceEvent) :=
  let stock_val := s.shares * price
  let total := stock_val + s.cash
  if total = 0 then none
  else
    let cur_ratio := stock_val / total
    if stock_ratio = 0 then none
    else
      let deviation := |cur_ratio - stock_ratio| / stock_ratio
      if trigger ≤ deviation ∧ i ≠ 0 then
        execTradeE stock_ratio commission tax i price s cur_ratio
      else
        some (s, none)

/-- Simulation loop (src/app.py lines 100-130) under raising semantics: an
exception in any period propagates, so the whole run yields `none` and
nothing is returned. -/
def runFromE (stock_ratio trigger commission tax : ℚ) :
    PortfolioState → ℕ → List ℚ →
      Option (PortfolioState × List EquityPoint × List RebalanceEvent)
  | s, _, [] => some (s, [], [])
  | s, i, price :: rest =>
    (stepPeriodE stock_ratio trigger commission tax i price s).bind fun r =>
      (runFromE stock_ratio trigger commission tax r.1 (i + 1) rest).map fun tail =>
        (tail.1,
         (⟨i, r.1.shares * price + r.1.cash, r.1.shares * price, r.1.cash⟩ : EquityPoint)
           :: tail.2.1,
         r.2.toList ++ tail.2.2)

/-- The engine `run_strategy` (src/app.py lines 91-133) under raising
division; `none` models an uncaught `ZeroDivisionError`. -/
def run_strategyE (p0 : ℚ) (rest : List ℚ)
    (init_cash stock_ratio trigger commission tax : ℚ) :
    Option (List EquityPoint × List RebalanceEvent) :=
  (initStateE init_cash stock_ratio commission p0).bind fun s0 =>
    (runFromE stock_ratio trigger commission tax s0 0 (p0 :: rest)).map fun r =>
      (r.2.1, r.2.2)

/-- Helper: where the raising embedding succeeds, it agrees with the total
one — the rational division's totalization is visible only on runs Python
would abort. -/
theorem stepPeriodE_agrees (sr tg c t : ℚ) (i : ℕ) (price : ℚ)
    (s : PortfolioState) (r : PortfolioState × Option RebalanceEvent)
    (h : stepPeriodE sr tg c t i price s = some r) :
    stepPeriod sr tg c t i price s = r := by
  simp only [stepPeriodE, stepPeriod, execTradeE, execTrade] at h ⊢
  split_ifs at h <;> simp_all

/-- Helper: a completed raising run has emitted one equity point per input
period. -/
theorem runFromE_length (sr tg c t : ℚ) :
    ∀ (rest : List ℚ) (s : PortfolioState) (i : ℕ)
      (r : PortfolioState × List EquityPoint × List RebalanceEvent),
      runFromE sr tg c t s i rest = some r → r.2.1.length = rest.length := by
  intro rest
  induction rest with
  | nil =>
    intro s i r h
    simp only [runFromE, Option.some_inj] at h
    rw [← h]
    rfl
  | cons price rest ih =>
    intro s i r h
    simp only [runFromE, Option.bind_eq_some, Option.map_eq_some'] at h
    obtain ⟨a, ha, tail, htail, rfl⟩ := h
    simp [ih a.1 (i + 1) tail htail]

/-- C8 amended: `run_strategy` performs no parameter validation and raises
no `InvalidParameterError`: whenever its arithmetic meets no zero divisor,
the simulation processes every period and emits exactly one equity point per
period even for out-of-range parameters — concretely, `target_ratio = 2`
(outside `(0,1)`) runs to completion; the inputs that do hit a zero divisor,
`target_ratio = 0` (src/app.py line 105) and `init_cash = 0` (line 104),
abort with `ZeroDivisionError` while processing the first period, not with a
fail-fast `InvalidParameterError`; parameter ranges are enforced only by the
UI widgets (src/app.py lines 58-65), outside the engine. -/
theorem C8_amended_no_validation :
    (∀ (p0 : ℚ) (rest : List ℚ) (init_cash stock_ratio trigger commission tax : ℚ)
        (r : List EquityPoint × List RebalanceEvent),
        run_strategyE p0 rest init_cash stock_ratio trigger commission tax = some r →
        r.1.length = rest.length + 1)
    ∧ run_strategyE 100 [] 1000000 2 (1/2) 0 0 =
        some ([⟨0, 1000000, 2000000, -1000000⟩], [])
    ∧ run_strategyE 100 [] 1000000 0 (1/2) 0 0 = none
    ∧ run_strategyE 100 [] 0 (1/2) (1/2) 0 0 = none := by
  refine ⟨?_, ?_, ?_, ?_⟩
  · intro p0 rest init_cash stock_ratio trigger commission tax r h
    simp only [run_strategyE, Option.bind_eq_some, Option.map_eq_some'] at h
    obtain ⟨s0, hs0, rr, hrr, rfl⟩ := h
    have hlen := runFromE_length stock_ratio trigger commission tax
      (p0 :: rest) s0 0 rr hrr
    simpa using hlen
  all_goals
    norm_num [run_strategyE, runFromE, stepPeriodE, execTradeE, initStateE, divE,
      abs, max_def]

/-- Witness for C8 (amended) at the completed out-of-range run
`target_ratio = 2` on the single-period series `[100]`. -/
theorem C8_witness :
    ([(⟨0, 1000000, 2000000, -1000000⟩ : EquityPoint)],
      ([] : List RebalanceEvent)).1.length = ([] : List ℚ).length + 1 :=
  C8_amended_no_validation.1 100 [] 1000000 2 (1/2) 0 0
    ([⟨0, 1000000, 2000000, -1000000⟩], [])
    (by norm_num [run_strategyE, runFromE, stepPeriodE, execTradeE, initStateE, divE,
      abs, max_def])

/-- Daily returns of an equity value series, `eq['value'].pct_change()
.dropna()` (src/app.py line 148): one return `v[t] / v[t-1] - 1` per
consecutive pair of values. -/
def pctChange : List ℚ → List ℚ
  | [] => []
  | [_] => []
  | a :: b :: rest => (b / a - 1) :: pctChange (b :: rest)

/-- Arithmetic mean of a list, `Series.mean()`. -/
def listMean (xs : List ℚ) : ℚ := xs.sum / xs.length

/-- Sample variance with one delta degree of freedom, the square of
`Series.std()` (the pandas default `ddof=1`); on a single observation the
source produces NaN, which the rational embedding does not represent, so the
theorems below take series of length at least 3 (hence at least two
returns). -/
def sampleVar (xs : List ℚ) : ℚ :=
  (xs.map (fun x => (x - listMean xs) ^ 2)).sum / ((xs.length : ℚ) - 1)

/-- Numerator `dr.mean() * 252 - 0.015` of the Sharpe expression in
`calc_stats` (src/app.py line 149); the risk-free constant is
`0.015 = 3/200`. -/
def sharpeNum (vals : List ℚ) : ℚ := listMean (pctChange vals) * 252 - 3/200

/-- Square of the denominator `dr.std() * np.sqrt(252)` of the Sharpe
expression in `calc_stats` (src/app.py line 149): the denominator of the
source's division is zero exactly when this rational is zero, and
`calc_stats` performs the division with no zero guard. -/
def sharpeDenSq (vals : List ℚ) : ℚ := sampleVar (pctChange vals) * 252

/-- C9 counterexample: on the flat equity series `[100, 100, 100]` the
returns are `[0, 0]`, the denominator of the Sharpe division is exactly zero
while the numerator is `-0.015 ≠ 0`: `calc_stats` divides a nonzero
numerator by zero (a non-finite float, `-inf`, with warnings suppressed at
src/app.py line 12) instead of returning the claimed `sharpe_ratio = 0`. -/
theorem C9_counterexample :
    sharpeDenSq [100, 100, 100] = 0
    ∧ sharpeNum [100, 100, 100] = -(3/200)
    ∧ (-(3/200) : ℚ) ≠ 0 := by
  refine ⟨?_, ?_, by norm_num⟩ <;>
    norm_num [sharpeDenSq, sharpeNum, sampleVar, listMean, pctChange]

/-- Helper: the returns of a constant positive series are identically 0. -/
theorem pctChange_replicate (v : ℚ) (hv : v ≠ 0) :
    ∀ n : ℕ, pctChange (List.replicate (n + 1) v) = List.replicate n 0 := by
  intro n
  induction n with
  | zero => simp [List.replicate, pctChange]
  | succ m ih =>
    have h2 : List.replicate (m + 1 + 1) v = v :: v :: List.replicate m v := rfl
    have h1 : List.replicate (m + 1) v = v :: List.replicate m v := rfl
    rw [h2, pctChange, ← h1, ih, div_self hv]
    norm_num [List.replicate]

/-- C9 amended: `calc_stats` computes the Sharpe ratio as `(dr.mean() * 252
- 0.015) / (dr.std() * sqrt(252))` unconditionally, with no flat-series
guard: on every constant equity trajectory (length at least 3, value
nonzero) the standard deviation of returns is exactly 0, so the division's
denominator is 0 while its numerator is `-0.015`, and the result is a
division by zero (non-finite in float arithmetic), not the claimed 0; for
non-flat series the quoted formula is the one computed. -/
theorem C9_amended_no_flat_guard (v : ℚ) (n : ℕ) (hv : v ≠ 0) (hn : 3 ≤ n) :
    sharpeDenSq (List.replicate n v) = 0
    ∧ sharpeNum (List.replicate n v) = -(3/200) := by
  obtain ⟨m, rfl⟩ : ∃ m, n = m + 1 := ⟨n - 1, by omega⟩
  rw [sharpeDenSq, sharpeNum, pctChange_replicate v hv]
  constructor
  · simp [sampleVar, listMean]
  · simp [listMean]

/-- Witness for C9 (amended) on the flat series of three 100s. -/
theorem C9_witness :
    sharpeDenSq (List.replicate 3 (100:ℚ)) = 0
    ∧ sharpeNum (List.replicate 3 (100:ℚ)) = -(3/200) :=
  C9_amended_no_flat_guard 100 3 (by norm_num) (by norm_num)

/-- C10: at simulation start the portfolio is `cash = init_cash * (1 -
target_ratio)` and `shares = init_cash * target_ratio * (1 - commission) /
price0`: the entry commission is absorbed entirely as a reduced share count,
never debited from the cash balance, so the initial total value at `price0`
is `init_cash * (1 - target_ratio * commission)` — which differs from
`init_cash * (1 - commission)` whenever `init_cash > 0`, `commission > 0`
and `target_ratio < 1`. -/
theorem C10_initial_allocation (init_cash stock_ratio commission p0 : ℚ)
    (hp : p0 ≠ 0) :
    (initState init_cash stock_ratio commission p0).cash = init_cash * (1 - stock_ratio)
    ∧ (initState init_cash stock_ratio commission p0).shares =
        init_cash * stock_ratio * (1 - commission) / p0
    ∧ (initState init_cash stock_ratio commission p0).shares * p0 +
        (initState init_cash stock_ratio commission p0).cash =
        init_cash * (1 - stock_ratio * commission)
    ∧ (0 < init_cash → 0 < commission → stock_ratio < 1 →
        init_cash * (1 - stock_ratio * commission) ≠ init_cash * (1 - commission)) := by
  refine ⟨rfl, rfl, ?_, ?_⟩
  · simp only [initState]
    rw [div_mul_cancel₀ _ hp]
    ring
  · intro hinit hc hsr heq
    have hne : init_cash * commission * (1 - stock_ratio) ≠ 0 := by
      have h1 : (0:ℚ) < 1 - stock_ratio := by linarith
      positivity
    exact hne (by linear_combination heq)

/-- Witness for C10 at the app's defaults: `init_cash = 1000000`,
`target_ratio = 1/2`, `commission = 57/40000`, `price0 = 100`. -/
theorem C10_witness :
    (initState 1000000 (1/2) (57/40000) 100).cash = 1000000 * (1 - 1/2)
    ∧ (initState 1000000 (1/2) (57/40000) 100).shares =
        1000000 * (1/2) * (1 - 57/40000) / 100
    ∧ (initState 1000000 (1/2) (57/40000) 100).shares * 100 +
        (initState 1000000 (1/2) (57/40000) 100).cash =
        1000000 * (1 - (1/2) * (57/40000))
    ∧ (1000000 : ℚ) * (1 - (1/2) * (57/40000)) ≠ 1000000 * (1 - 57/40000) := by
  have h := C10_initial_allocation 1000000 (1/2) (57/40000) 100 (by norm_num)
  exact ⟨h.1, h.2.1, h.2.2.1, h.2.2.2 (by norm_num) (by norm_num) (by norm_num)⟩
